import Mathlib

/-!
Shallow embedding of the to-do task manager in
`src/todo_app_frontend/src/App.js`.

The app is a single React component.  Its state (`useState` hooks) is
modelled by the structure `AppState`; the updater callbacks passed to
`setTasks` are modelled by list-level functions (`toggleList`,
`removeList`, `clearList`, ...) and the event handlers (`addTask`,
`toggleTask`, `removeTask`, `commitEdit`, `clearCompleted`) by state
transformers.  The two impure inputs of the source — `Date.now()` and
the random id generator `uid()` — are passed in as explicit parameters
(`now : Nat`, `newId : String`).  JavaScript's falsy test on strings
(`if (!editingId)`, `if (!trimmed)`) is modelled by an explicit test
against the empty string, since in JS the empty string is falsy.
-/

namespace Todo

/-- Whitespace, as trimmed by JavaScript `String.prototype.trim` (the
ASCII fragment relevant to this app). -/
def isWsChar (c : Char) : Bool :=
  c = ' ' || c = '\t' || c = '\n' || c = '\r'

/-- Drop leading whitespace characters. -/
def dropWsL : List Char → List Char
  | [] => []
  | c :: cs => if isWsChar c then dropWsL cs else c :: cs

/-- JavaScript `s.trim()`: strip leading and trailing whitespace. -/
def jsTrim (s : String) : String :=
  String.mk ((dropWsL ((dropWsL s.toList).reverse)).reverse)

/-- JavaScript `toLowerCase` on one character (ASCII fragment). -/
def lowerChar (c : Char) : Char :=
  if c.toNat ≥ 65 ∧ c.toNat ≤ 90 then Char.ofNat (c.toNat + 32) else c

/-- JavaScript `s.toLowerCase()` (ASCII fragment). -/
def jsToLower (s : String) : String :=
  String.mk (s.toList.map lowerChar)

/-- A task record, from the `@typedef Task` in App.js: `id`, `title`,
`completed`, `createdAt`, `updatedAt` (timestamps are `Date.now()`
values, modelled as `Nat`). -/
structure Task where
  id : String
  title : String
  completed : Bool
  createdAt : Nat
  updatedAt : Nat
deriving Repr, DecidableEq

/-- The component state: the `useState` hooks `tasks`, `filter`
(`"all" | "active" | "completed"`), `query`, `draft`, `editingId`
(`null` modelled as `none`), `editingTitle`.  The theme state is
outside the task core and omitted. -/
structure AppState where
  tasks : List Task
  filter : String
  query : String
  draft : String
  editingId : Option String
  editingTitle : String
deriving Repr, DecidableEq

/-- The updater of `toggleTask`:
`prev.map (t => t.id === id ? { ...t, completed: !t.completed, updatedAt: Date.now() } : t)`. -/
def toggleList (id : String) (now : Nat) (ts : List Task) : List Task :=
  ts.map (fun t => if t.id = id then { t with completed := !t.completed, updatedAt := now } else t)

/-- The updater of `removeTask`: `prev.filter (t => t.id !== id)`. -/
def removeList (id : String) (ts : List Task) : List Task :=
  ts.filter (fun t => t.id ≠ id)

/-- The updater of `clearCompleted`: `prev.filter (t => !t.completed)`. -/
def clearList (ts : List Task) : List Task :=
  ts.filter (fun t => !t.completed)

/-- The updater of the rename branch of `commitEdit`:
`prev.map (t => t.id === editingId ? { ...t, title, updatedAt: Date.now() } : t)`. -/
def renameList (id : String) (title : String) (now : Nat) (ts : List Task) : List Task :=
  ts.map (fun t => if t.id = id then { t with title := title, updatedAt := now } else t)

/-- `addTask(title)` (App.js 61–74): trims; if the trimmed title is empty
(falsy) returns with no state change; otherwise prepends a fresh task
with `completed=false`, `createdAt=updatedAt=now`, and clears the draft.
The fresh id produced by `uid()` is the parameter `newId`. -/
def addTask (title : String) (newId : String) (now : Nat) (s : AppState) : AppState :=
  let trimmed := jsTrim title
  if trimmed = "" then s
  else
    { s with
      tasks := { id := newId, title := trimmed, completed := false,
                 createdAt := now, updatedAt := now } :: s.tasks,
      draft := "" }

/-- `toggleTask(id)` (App.js 77–83). -/
def toggleTask (id : String) (now : Nat) (s : AppState) : AppState :=
  { s with tasks := toggleList id now s.tasks }

/-- `removeTask(id)` (App.js 86–92): filters out the task and, when the
removed id is the one under edit (`editingId === id`), clears the edit
state. -/
def removeTask (id : String) (s : AppState) : AppState :=
  let s1 := { s with tasks := removeList id s.tasks }
  if s.editingId = some id then { s1 with editingId := none, editingTitle := "" } else s1

/-- `beginEdit(task)` (App.js 95–98). -/
def beginEdit (t : Task) (s : AppState) : AppState :=
  { s with editingId := some t.id, editingTitle := t.title }

/-- `commitEdit()` (App.js 101–114): trims the buffered `editingTitle`;
returns unchanged when `editingId` is falsy (`null`, modelled `none`, or
the empty string); if the trimmed title is empty delegates to
`removeTask(editingId)`; otherwise renames the task, stamps `updatedAt`,
and clears the edit state. -/
def commitEdit (now : Nat) (s : AppState) : AppState :=
  let title := jsTrim s.editingTitle
  match s.editingId with
  | none => s
  | some eid =>
    if eid = "" then s
    else if title = "" then removeTask eid s
    else
      { s with
        tasks := renameList eid title now s.tasks,
        editingId := none, editingTitle := "" }

/-- `clearCompleted()` (App.js 117–119): only calls `setTasks`; every
other piece of state is untouched. -/
def clearCompleted (s : AppState) : AppState :=
  { s with tasks := clearList s.tasks }

/-- The first narrowing of the `filtered` memo (App.js 124–128):
`'active'` keeps uncompleted, `'completed'` keeps completed, anything
else (the `'all'` tab) keeps everything. -/
def filterPred (filter : String) (t : Task) : Bool :=
  if filter = "active" then !t.completed
  else if filter = "completed" then t.completed
  else true

/-- JavaScript `hay.includes(needle)` on lists of characters: some
suffix of the haystack starts with the needle. -/
def strStarts : List Char → List Char → Bool
  | [], _ => true
  | _ :: _, [] => false
  | a :: as, b :: bs => a = b && strStarts as bs

/-- Substring containment, auxiliary recursion over the haystack. -/
def strContainsAux (needle : List Char) : List Char → Bool
  | [] => needle.isEmpty
  | c :: cs => strStarts needle (c :: cs) || strContainsAux needle cs

/-- `hay.includes(needle)` of JavaScript strings. -/
def strIncludes (hay needle : String) : Bool :=
  strContainsAux needle.toList hay.toList

/-- The second narrowing of the `filtered` memo (App.js 129):
`q ? t.title.toLowerCase().includes(q) : true`, where `q` is the
already-trimmed-and-lowercased query. -/
def matchesQuery (q : String) (t : Task) : Bool :=
  if q ≠ "" then strIncludes (jsToLower t.title) q else true

/-- The `filtered` memo (App.js 121–130):
`q = query.trim().toLowerCase()`, then filter by tab, then by query. -/
def filtered (tasks : List Task) (filter query : String) : List Task :=
  let q := jsToLower (jsTrim query)
  (tasks.filter (filterPred filter)).filter (matchesQuery q)

/-- A sequence of `addTask` intents: each list entry carries the typed
title together with the environment-supplied fresh id and clock value
consumed by that call. -/
def addAll (items : List (String × String × Nat)) (s : AppState) : AppState :=
  items.foldl (fun st p => addTask p.1 p.2.1 p.2.2 st) s

/-- `tasks.find` by id, used to observe a single task of a collection. -/
def findTask (id : String) (ts : List Task) : Option Task :=
  ts.find? (fun t => t.id = id)

/-! ### Startup load of the persisted `tasks` key

App.js 41–48 initialises the `tasks` state with
`try { const saved = localStorage.getItem('tasks'); return saved ? JSON.parse(saved) : []; } catch { return []; }`.
`JSON.parse` is a platform builtin; it is modelled here by `jsonParse`,
a recursive-descent parser for the JSON fragment the app stores (null,
booleans, integers, escape-free strings, arrays, objects) — enough to
exhibit faithfully which inputs parse, which throw, and what value a
successful parse produces.  Note the JS code uses the successful parse
result as-is: there is no shape validation. -/

/-- A JSON value, the result type of the modelled `JSON.parse`. -/
inductive Json where
  | null : Json
  | bool (b : Bool) : Json
  | num (n : Int) : Json
  | str (s : String) : Json
  | arr (elems : List Json) : Json
  | obj (fields : List (String × Json)) : Json
deriving Repr

/-- The character `\x7b` (opening curly brace). -/
def openBrace : Char := Char.ofNat 123

/-- The character `\x7d` (closing curly brace). -/
def closeBrace : Char := Char.ofNat 125

/-- Skip JSON whitespace. -/
def skipWs : List Char → List Char
  | [] => []
  | c :: cs => if isWsChar c then skipWs cs else c :: cs

/-- Consume a run of decimal digits, accumulating their value; returns
the value and the rest of the input. -/
def parseDigits : List Char → Nat → Nat × List Char
  | [], acc => (acc, [])
  | c :: cs, acc =>
    if c.isDigit then parseDigits cs (acc * 10 + (c.toNat - 48)) else (acc, c :: cs)

/-- Consume the characters of a string literal after the opening quote,
up to the closing quote.  Escape sequences are outside the modelled
fragment and fail the parse. -/
def strChars : List Char → Option (List Char × List Char)
  | [] => none
  | c :: cs =>
    if c = '"' then some ([], cs)
    else if c = '\\' then none
    else (strChars cs).map (fun p => (c :: p.1, p.2))

mutual

/-- Parse one JSON value; `fuel` bounds the nesting depth. -/
def parseVal : Nat → List Char → Option (Json × List Char)
  | 0, _ => none
  | Nat.succ fuel, cs0 =>
    match skipWs cs0 with
    | [] => none
    | c :: cs =>
      if c = 'n' then
        match cs with
        | 'u' :: 'l' :: 'l' :: rest => some (Json.null, rest)
        | _ => none
      else if c = 't' then
        match cs with
        | 'r' :: 'u' :: 'e' :: rest => some (Json.bool true, rest)
        | _ => none
      else if c = 'f' then
        match cs with
        | 'a' :: 'l' :: 's' :: 'e' :: rest => some (Json.bool false, rest)
        | _ => none
      else if c = '"' then
        (strChars cs).map (fun p => (Json.str (String.mk p.1), p.2))
      else if c = '[' then
        match skipWs cs with
        | ']' :: rest => some (Json.arr [], rest)
        | cs2 => (parseElems fuel cs2).map (fun p => (Json.arr p.1, p.2))
      else if c = openBrace then
        match skipWs cs with
        | [] => none
        | d :: rest =>
          if d = closeBrace then some (Json.obj [], rest)
          else (parseFields fuel (d :: rest)).map (fun p => (Json.obj p.1, p.2))
      else if c = '-' then
        match cs with
        | [] => none
        | d :: _ =>
          if d.isDigit then
            let p := parseDigits cs 0
            some (Json.num (-(Int.ofNat p.1)), p.2)
          else none
      else if c.isDigit then
        let p := parseDigits (c :: cs) 0
        some (Json.num (Int.ofNat p.1), p.2)
      else none

/-- Parse the comma-separated elements of a non-empty JSON array, up to
and including the closing bracket. -/
def parseElems : Nat → List Char → Option (List Json × List Char)
  | 0, _ => none
  | Nat.succ fuel, cs => Option.bind (parseVal fuel cs) (fun vp =>
      match skipWs vp.2 with
      | ',' :: more => (parseElems fuel more).map (fun p => (vp.1 :: p.1, p.2))
      | ']' :: more => some ([vp.1], more)
      | _ => none)

/-- Parse the comma-separated `"key": value` fields of a non-empty JSON
object, up to and including the closing brace. -/
def parseFields : Nat → List Char → Option (List (String × Json) × List Char)
  | 0, _ => none
  | Nat.succ fuel, cs =>
    match skipWs cs with
    | '"' :: rest => Option.bind (strChars rest) (fun kp =>
        match skipWs kp.2 with
        | ':' :: rest2 => Option.bind (parseVal fuel rest2) (fun vp =>
            match skipWs vp.2 with
            | ',' :: more =>
              (parseFields fuel more).map (fun p => ((String.mk kp.1, vp.1) :: p.1, p.2))
            | d :: more =>
              if d = closeBrace then some ([(String.mk kp.1, vp.1)], more) else none
            | [] => none)
        | _ => none)
    | _ => none

end

/-- The modelled `JSON.parse`: parse one value and require only trailing
whitespace after it; `none` models a thrown `SyntaxError`. -/
def jsonParse (s : String) : Option Json :=
  match parseVal (s.toList.length + 1) s.toList with
  | some (v, rest) => if (skipWs rest).isEmpty then some v else none
  | none => none

/-- The `tasks` `useState` initializer (App.js 41–48): absent key
(`getItem` returned `null`) or the falsy empty string yield `[]`; a
parse error is caught and yields `[]`; a successful parse is returned
as-is, whatever its shape. -/
def loadTasks (saved : Option String) : Json :=
  match saved with
  | none => Json.arr []
  | some s =>
    if s = "" then Json.arr []
    else
      match jsonParse s with
      | some v => v
      | none => Json.arr []

/-- Field lookup in a parsed JSON object. -/
def lookupField (fields : List (String × Json)) (k : String) : Option Json :=
  (fields.find? (fun p => p.1 = k)).map (fun p => p.2)

/-- Is this JSON value a string? -/
def isStrJson : Option Json → Bool
  | some (Json.str _) => true
  | _ => false

/-- Is this JSON value a boolean? -/
def isBoolJson : Option Json → Bool
  | some (Json.bool _) => true
  | _ => false

/-- Is this JSON value a number? -/
def isNumJson : Option Json → Bool
  | some (Json.num _) => true
  | _ => false

/-- A well-formed serialized task: an object with the five attributes of
the data model at their expected types. -/
def isTaskJson : Json → Bool
  | Json.obj fields =>
    isStrJson (lookupField fields "id") &&
    isStrJson (lookupField fields "title") &&
    isBoolJson (lookupField fields "completed") &&
    isNumJson (lookupField fields "createdAt") &&
    isNumJson (lookupField fields "updatedAt")
  | _ => false

/-- A well-formed serialized task collection: an array of well-formed
tasks. -/
def isTaskCollectionJson : Json → Bool
  | Json.arr es => es.all isTaskJson
  | _ => false

example : addTask "  Buy milk  " "a1" 7 ⟨[], "all", "", "x", none, ""⟩ =
    ⟨[⟨"a1", "Buy milk", false, 7, 7⟩], "all", "", "", none, ""⟩ := by decide

example : addTask "   " "a1" 7 ⟨[], "all", "", "x", none, ""⟩ =
    ⟨[], "all", "", "x", none, ""⟩ := by decide

example : filtered [⟨"1", "Buy milk", false, 0, 0⟩, ⟨"2", "Pay bills", true, 0, 0⟩]
    "active" "milk" = [⟨"1", "Buy milk", false, 0, 0⟩] := by decide

example : filtered [⟨"1", "Buy milk", false, 0, 0⟩, ⟨"2", "Pay bills", true, 0, 0⟩]
    "completed" "milk" = [] := by decide

example : commitEdit 5 ⟨[⟨"", "keep", false, 0, 0⟩], "all", "", "", some "", "  "⟩ =
    ⟨[⟨"", "keep", false, 0, 0⟩], "all", "", "", some "", "  "⟩ := by decide

example : removeTask "" ⟨[⟨"", "keep", false, 0, 0⟩], "all", "", "", some "", "  "⟩ =
    ⟨[], "all", "", "", none, ""⟩ := by decide

/-! ### Helper lemmas -/

/-- Mapping a by-id patch over a collection that does not contain the id
is the identity. -/
theorem map_no_match (ts : List Task) (id : String) (f : Task → Task)
    (h : ∀ t ∈ ts, t.id ≠ id) :
    ts.map (fun t => if t.id = id then f t else t) = ts := by
  induction ts with
  | nil => rfl
  | cons a as ih =>
    have ha : a.id ≠ id := h a (List.mem_cons_self a as)
    have ih := ih (fun t ht => h t (List.mem_cons_of_mem a ht))
    simp [ha, ih]

/-- Observing the toggled task: `find?` by id commutes with the toggle
patch. -/
theorem findTask_toggleList (id : String) (n : Nat) (ts : List Task) :
    findTask id (toggleList id n ts) =
      (findTask id ts).map (fun t => { t with completed := !t.completed, updatedAt := n }) := by
  induction ts with
  | nil => rfl
  | cons a as ih =>
    by_cases ha : a.id = id
    · simp [findTask, toggleList, List.find?, ha]
    · simpa [findTask, toggleList, List.find?, ha] using ih

/-- Unfolding one `addTask` intent of a sequence. -/
theorem addAll_cons (i : String × String × Nat) (rest : List (String × String × Nat))
    (s : AppState) :
    addAll (i :: rest) s = addAll rest (addTask i.1 i.2.1 i.2.2 s) := rfl

/-! ### Claims -/

/-- C4: `add(title)` first trims the title; if the trimmed result is
empty the state (hence the collection) is returned unchanged; otherwise
exactly one new task is prepended to the front of the collection,
carrying the trimmed title, `completed := false` and
`createdAt = updatedAt = now`, with all existing tasks unchanged and in
their prior order. -/
theorem addTask_spec (title newId : String) (n : Nat) (s : AppState) :
    (jsTrim title = "" → addTask title newId n s = s) ∧
    (jsTrim title ≠ "" →
      (addTask title newId n s).tasks =
        { id := newId, title := jsTrim title, completed := false,
          createdAt := n, updatedAt := n } :: s.tasks) := by
  constructor
  · intro h; simp [addTask, h]
  · intro h; simp [addTask, h]

/-- Witness for C4: a blank add is a no-op; `add("  Buy milk  ")`
prepends the task titled `"Buy milk"`. -/
theorem addTask_spec_witness :
    addTask "   " "a1" 3 ⟨[], "all", "", "d", none, ""⟩ = ⟨[], "all", "", "d", none, ""⟩ ∧
    (addTask "  Buy milk  " "a2" 5 ⟨[], "all", "", "d", none, ""⟩).tasks =
      [⟨"a2", "Buy milk", false, 5, 5⟩] := by
  constructor
  · exact (addTask_spec "   " "a1" 3 ⟨[], "all", "", "d", none, ""⟩).1 (by decide)
  · have h := (addTask_spec "  Buy milk  " "a2" 5 ⟨[], "all", "", "d", none, ""⟩).2 (by decide)
    rw [h]; decide

/-- C8: `clearCompleted()` removes exactly the completed tasks: no
remaining task is completed, every previously-active task is still
present (unchanged, being the same element), and the survivors keep
their original relative order (sublist). -/
theorem clearCompleted_spec (ts : List Task) :
    (∀ t ∈ clearList ts, t.completed = false) ∧
    (∀ t ∈ ts, t.completed = false → t ∈ clearList ts) ∧
    List.Sublist (clearList ts) ts := by
  refine ⟨?_, ?_, List.filter_sublist ts⟩
  · intro t ht
    have := List.of_mem_filter ht
    simpa using this
  · intro t ht hc
    exact List.mem_filter.mpr ⟨ht, by simp [hc]⟩

/-- Witness for C8 at a concrete mixed collection. -/
theorem clearCompleted_spec_witness :
    (⟨"a", "A", false, 0, 0⟩ : Task) ∈
      clearList [⟨"a", "A", false, 0, 0⟩, ⟨"b", "B", true, 0, 0⟩] ∧
    clearList [⟨"a", "A", false, 0, 0⟩, ⟨"b", "B", true, 0, 0⟩] = [⟨"a", "A", false, 0, 0⟩] := by
  constructor
  · exact (clearCompleted_spec [⟨"a", "A", false, 0, 0⟩, ⟨"b", "B", true, 0, 0⟩]).2.1
      ⟨"a", "A", false, 0, 0⟩ (by decide) (by decide)
  · decide

/-- C9: when no edit is in progress (`editingId = none`), `commitEdit`
is a complete no-op: the whole state — collection, edit state, and all
other session state — is returned unchanged, whatever the buffered
`editingTitle`. -/
theorem commitEdit_idle_noop (s : AppState) (n : Nat) (h : s.editingId = none) :
    commitEdit n s = s := by
  simp [commitEdit, h]

/-- Witness for C9 with a non-trivial buffered title. -/
theorem commitEdit_idle_noop_witness :
    commitEdit 7 ⟨[⟨"a", "A", false, 0, 0⟩], "active", "q", "d", none, "leftover"⟩ =
      ⟨[⟨"a", "A", false, 0, 0⟩], "active", "q", "d", none, "leftover"⟩ :=
  commitEdit_idle_noop ⟨[⟨"a", "A", false, 0, 0⟩], "active", "q", "d", none, "leftover"⟩ 7 rfl

/-- C10: `clearCompleted` changes only the task collection — filter,
query, draft, `editingId` and `editingTitle` are untouched, even when
the task under edit is completed and removed (so `editingId` may
dangle); by contrast `removeTask` on the task under edit clears the
edit state. -/
theorem clearCompleted_frame (s : AppState) (x : String) :
    (clearCompleted s).editingId = s.editingId ∧
    (clearCompleted s).editingTitle = s.editingTitle ∧
    (clearCompleted s).filter = s.filter ∧
    (clearCompleted s).query = s.query ∧
    (clearCompleted s).draft = s.draft ∧
    (clearCompleted s).tasks = clearList s.tasks ∧
    (s.editingId = some x →
      (removeTask x s).editingId = none ∧ (removeTask x s).editingTitle = "") := by
  refine ⟨rfl, rfl, rfl, rfl, rfl, rfl, ?_⟩
  intro h
  simp [removeTask, h]

/-- Witness for C10: clearing while editing the completed task `"a"`
leaves `editingId = some "a"` dangling (no task `"a"` remains), while
`removeTask "a"` clears the edit state. -/
theorem clearCompleted_frame_witness :
    (clearCompleted ⟨[⟨"a", "A", true, 0, 0⟩], "all", "", "", some "a", "A"⟩).editingId =
      some "a" ∧
    findTask "a" (clearCompleted ⟨[⟨"a", "A", true, 0, 0⟩], "all", "", "", some "a", "A"⟩).tasks =
      none ∧
    (removeTask "a" ⟨[⟨"a", "A", true, 0, 0⟩], "all", "", "", some "a", "A"⟩).editingId = none := by
  have h := clearCompleted_frame ⟨[⟨"a", "A", true, 0, 0⟩], "all", "", "", some "a", "A"⟩ "a"
  exact ⟨h.1.trans rfl, by decide, (h.2.2.2.2.2.2 rfl).1⟩

/-- C7: operations on an id absent from the collection are benign
no-ops: `toggle` and `remove` leave the collection unchanged, and
`commitEdit` of a non-blank buffered title while `editingId` holds the
stale id leaves the collection unchanged as well (the functions are
total, so no error can be raised). -/
theorem stale_id_noop (ts : List Task) (id : String) (n : Nat) (s : AppState)
    (h1 : ∀ t ∈ ts, t.id ≠ id) (h2 : ∀ t ∈ s.tasks, t.id ≠ id)
    (h3 : s.editingId = some id) (h4 : jsTrim s.editingTitle ≠ "") :
    toggleList id n ts = ts ∧ removeList id ts = ts ∧ (commitEdit n s).tasks = s.tasks := by
  refine ⟨map_no_match ts id _ h1, ?_, ?_⟩
  · exact List.filter_eq_self.mpr (fun t ht => by simpa using h1 t ht)
  · by_cases hid : id = ""
    · simp [commitEdit, h3, hid]
    · by_cases hb : jsTrim s.editingTitle = ""
      · exact absurd hb h4
      · simp only [commitEdit, h3, hid, hb, if_neg]
        simpa [renameList] using map_no_match s.tasks id _ h2

/-- Witness for C7 at the stale id `"zz"`. -/
theorem stale_id_noop_witness :
    toggleList "zz" 9 [⟨"a", "A", false, 0, 0⟩] = [⟨"a", "A", false, 0, 0⟩] ∧
    removeList "zz" [⟨"a", "A", false, 0, 0⟩] = [⟨"a", "A", false, 0, 0⟩] ∧
    (commitEdit 9 ⟨[⟨"a", "A", false, 0, 0⟩], "all", "", "", some "zz", "x"⟩).tasks =
      [⟨"a", "A", false, 0, 0⟩] :=
  stale_id_noop [⟨"a", "A", false, 0, 0⟩] "zz" 9
    ⟨[⟨"a", "A", false, 0, 0⟩], "all", "", "", some "zz", "x"⟩
    (by decide) (by decide) rfl (by decide)

/-- C6: toggling the same id twice, with the clock not running backwards
between the two mutations (`n1 ≤ n2`), restores the task's original
`completed` flag, and its `updatedAt` after the second toggle is ≥ its
value after the first. -/
theorem toggle_toggle_spec (s : AppState) (id : String) (n1 n2 : Nat) (t0 : Task)
    (hmono : n1 ≤ n2) (h0 : findTask id s.tasks = some t0) :
    ∃ t1 t2,
      findTask id (toggleTask id n1 s).tasks = some t1 ∧
      findTask id (toggleTask id n2 (toggleTask id n1 s)).tasks = some t2 ∧
      t2.completed = t0.completed ∧
      t1.updatedAt ≤ t2.updatedAt := by
  have h1 : findTask id (toggleTask id n1 s).tasks =
      some { t0 with completed := !t0.completed, updatedAt := n1 } := by
    show findTask id (toggleList id n1 s.tasks) = _
    rw [findTask_toggleList, h0]; rfl
  have h2 : findTask id (toggleTask id n2 (toggleTask id n1 s)).tasks =
      some { t0 with completed := !(!t0.completed), updatedAt := n2 } := by
    show findTask id (toggleList id n2 (toggleTask id n1 s).tasks) = _
    rw [findTask_toggleList, h1]; rfl
  exact ⟨_, _, h1, h2, by simp, hmono⟩

/-- Witness for C6 on a concrete singleton collection. -/
theorem toggle_toggle_spec_witness :
    ∃ t1 t2,
      findTask "a" (toggleTask "a" 4 ⟨[⟨"a", "A", false, 0, 0⟩], "all", "", "", none, ""⟩).tasks =
        some t1 ∧
      findTask "a"
          (toggleTask "a" 6
            (toggleTask "a" 4 ⟨[⟨"a", "A", false, 0, 0⟩], "all", "", "", none, ""⟩)).tasks =
        some t2 ∧
      t2.completed = false ∧
      t1.updatedAt ≤ t2.updatedAt :=
  toggle_toggle_spec ⟨[⟨"a", "A", false, 0, 0⟩], "all", "", "", none, ""⟩ "a" 4 6
    ⟨"a", "A", false, 0, 0⟩ (by decide) rfl

/-- C1 counterexample: the claim fails at the task id `""`.  JavaScript
tests `if (!editingId) return;`, and the empty string is falsy, so with
a task of id `""` under edit and a blank buffered title, `commitEdit`
returns the state unchanged (the task survives), while `removeTask ""`
deletes it. -/
theorem commitEdit_blank_counterexample :
    (⟨"", "keep", false, 0, 0⟩ : Task) ∈
      (⟨[⟨"", "keep", false, 0, 0⟩], "all", "", "", some "", "  "⟩ : AppState).tasks ∧
    (⟨[⟨"", "keep", false, 0, 0⟩], "all", "", "", some "", "  "⟩ : AppState).editingId =
      some "" ∧
    jsTrim (⟨[⟨"", "keep", false, 0, 0⟩], "all", "", "", some "", "  "⟩ : AppState).editingTitle =
      "" ∧
    (commitEdit 5 ⟨[⟨"", "keep", false, 0, 0⟩], "all", "", "", some "", "  "⟩).tasks ≠
      (removeTask "" ⟨[⟨"", "keep", false, 0, 0⟩], "all", "", "", some "", "  "⟩).tasks := by
  decide

/-- C1 (amended): for every collection containing a task with a
**non-empty** id `x`, committing an edit of `x` with a blank buffered
title yields exactly `remove(x)` — the whole resulting state, collection
included, coincides with `removeTask x`. -/
theorem commitEdit_blank_deletes (s : AppState) (x : String) (n : Nat)
    (hmem : ∃ t ∈ s.tasks, t.id = x) (hx : x ≠ "")
    (hid : s.editingId = some x) (ht : jsTrim s.editingTitle = "") :
    commitEdit n s = removeTask x s := by
  simp [commitEdit, hid, hx, ht]

/-- Witness for the amended C1 at a concrete state. -/
theorem commitEdit_blank_deletes_witness :
    commitEdit 9 ⟨[⟨"a1", "T", false, 0, 0⟩], "all", "", "", some "a1", " "⟩ =
      removeTask "a1" ⟨[⟨"a1", "T", false, 0, 0⟩], "all", "", "", some "a1", " "⟩ :=
  commitEdit_blank_deletes ⟨[⟨"a1", "T", false, 0, 0⟩], "all", "", "", some "a1", " "⟩ "a1" 9
    (by decide) (by decide) rfl (by decide)

/-- C5: the filter-and-search projection is a pure function of
(collection, filter, query) — it is a Lean function of exactly those
arguments, so it cannot mutate the collection.  It keeps exactly the
tasks passing the tab filter (`"all"`: every task; `"active"`:
uncompleted; `"completed"`: completed) whose lowercased title contains
the trimmed lowercased query as a substring, an empty trimmed query
matching every title, and it preserves the collection's order
(sublist). -/
theorem filtered_spec (ts : List Task) (f q : String) :
    List.Sublist (filtered ts f q) ts ∧
    (∀ t, t ∈ filtered ts f q ↔
      t ∈ ts ∧ filterPred f t = true ∧ matchesQuery (jsToLower (jsTrim q)) t = true) ∧
    (∀ t, filterPred "all" t = true) ∧
    (∀ t, filterPred "active" t = !t.completed) ∧
    (∀ t, filterPred "completed" t = t.completed) ∧
    (jsTrim q = "" → filtered ts f q = ts.filter (filterPred f)) := by
  refine ⟨?_, ?_, ?_, ?_, ?_, ?_⟩
  · exact (List.filter_sublist _).trans (List.filter_sublist ts)
  · intro t
    simp only [filtered, List.mem_filter, and_assoc]
  · intro t; simp [filterPred]
  · intro t; simp [filterPred]
  · intro t; simp [filterPred]
  · intro h
    have hq : jsToLower (jsTrim q) = "" := by rw [h]; rfl
    simp [filtered, hq, matchesQuery]

/-- Witness for C5 at the spec's example collection: the `active`
filter with query `"milk"` keeps exactly `"Buy milk"`, and the
`completed` filter with the same query keeps nothing. -/
theorem filtered_spec_witness :
    (⟨"1", "Buy milk", false, 0, 0⟩ : Task) ∈
      filtered [⟨"1", "Buy milk", false, 0, 0⟩, ⟨"2", "Pay bills", true, 0, 0⟩]
        "active" "milk" ∧
    filtered [⟨"1", "Buy milk", false, 0, 0⟩, ⟨"2", "Pay bills", true, 0, 0⟩]
        "completed" "milk" = [] := by
  constructor
  · exact ((filtered_spec [⟨"1", "Buy milk", false, 0, 0⟩, ⟨"2", "Pay bills", true, 0, 0⟩]
      "active" "milk").2.1 ⟨"1", "Buy milk", false, 0, 0⟩).mpr
      ⟨by decide, by decide, by decide⟩
  · decide

/-- C2 counterexample: ids come from `uid()` = `Math.random()` digits,
which nothing prevents from repeating.  A session in which the
environment yields the id `"x"` twice produces two tasks that share an
id, so the claim — distinctness for **every** sequence of adds — fails
on the code. -/
theorem addAll_unique_counterexample :
    ((addAll [("A", "x", 0), ("B", "x", 1)] ⟨[], "all", "", "", none, ""⟩).tasks.map Task.id) =
      ["x", "x"] ∧
    ¬ ((addAll [("A", "x", 0), ("B", "x", 1)]
        ⟨[], "all", "", "", none, ""⟩).tasks.map Task.id).Nodup := by
  decide

/-- C2 (amended): provided the ids supplied by the generator during the
session are pairwise distinct and distinct from the ids already in the
collection — which `Math.random` makes overwhelmingly likely but does
not guarantee — every task after any sequence of adds has a distinct
id. -/
theorem addAll_unique (items : List (String × String × Nat)) (s : AppState)
    (h : (items.map (fun p => p.2.1) ++ s.tasks.map Task.id).Nodup) :
    ((addAll items s).tasks.map Task.id).Nodup := by
  induction items generalizing s with
  | nil => simpa using h
  | cons i rest ih =>
    rw [addAll_cons]
    simp only [List.map_cons, List.cons_append] at h
    by_cases hb : jsTrim i.1 = ""
    · have hs : addTask i.1 i.2.1 i.2.2 s = s := by simp [addTask, hb]
      rw [hs]
      exact ih s h.of_cons
    · have hs : (addTask i.1 i.2.1 i.2.2 s).tasks =
          { id := i.2.1, title := jsTrim i.1, completed := false,
            createdAt := i.2.2, updatedAt := i.2.2 } :: s.tasks := by
        simp [addTask, hb]
      apply ih
      rw [hs]
      simp only [List.map_cons]
      exact List.Perm.nodup_iff List.perm_middle |>.mpr h

/-- Witness for the amended C2: two adds with distinct fresh ids yield
distinct task ids. -/
theorem addAll_unique_witness :
    ((addAll [("A", "x", 0), ("B", "y", 1)] ⟨[], "all", "", "", none, ""⟩).tasks.map
      Task.id).Nodup :=
  addAll_unique [("A", "x", 0), ("B", "y", 1)] ⟨[], "all", "", "", none, ""⟩ (by decide)

/-- C3 counterexample: the persisted content `"5"` is valid JSON, so
`JSON.parse` succeeds (no exception, hence no `catch`-fallback) and the
load returns the number `5` as the task state — not a well-formed task
collection.  The claim that *every* byte string loads to a well-formed
collection fails on the code, which validates nothing on a successful
parse. -/
theorem loadTasks_counterexample :
    loadTasks (some "5") = Json.num 5 ∧
    isTaskCollectionJson (loadTasks (some "5")) = false := by
  exact ⟨rfl, rfl⟩

/-- C3 (amended): the load never propagates an error (it is a total
function); an absent key, the empty string, or content on which the
parse throws all fall back to the empty collection; but a successful
parse is returned as-is, well-formed only when the bytes actually
encoded a collection. -/
theorem loadTasks_spec (s : String) (v : Json) :
    loadTasks none = Json.arr [] ∧
    loadTasks (some "") = Json.arr [] ∧
    (jsonParse s = none → loadTasks (some s) = Json.arr []) ∧
    (s ≠ "" → jsonParse s = some v → loadTasks (some s) = v) := by
  refine ⟨rfl, rfl, ?_, ?_⟩
  · intro h
    by_cases hs : s = "" <;> simp [loadTasks, hs, h]
  · intro hs h
    simp [loadTasks, hs, h]

/-- Witness for the amended C3: garbage falls back to the empty
collection, and a parsed empty array is returned as such. -/
theorem loadTasks_spec_witness :
    loadTasks (some "not json") = Json.arr [] ∧
    loadTasks (some "[]") = Json.arr [] := by
  refine ⟨(loadTasks_spec "not json" (Json.arr [])).2.2.1 rfl, ?_⟩
  exact (loadTasks_spec "[]" (Json.arr [])).2.2.2 (by decide) rfl

end Todo
